import Mathlib

/-!
Verification development for the DanmDown downloader (src/main.py).

The Python source is shallowly embedded below. Byte payloads are `List Nat`
(each entry one byte value), Python ints are `Nat`/`Int` with explicit
wrapping where the source wraps, Python lists are `List`, and the process
`set` used for deduplication is a duplicate-free `List String` grown by
append-if-absent (only membership and size of the set are ever observed by
the source, both of which this representation preserves).

Two primitives of the Python runtime that the source calls but does not
define are kept abstract in a context record: the builtin salted string
`hash`, and the lenient UTF-8 byte decoding used for wire strings. Every
claim below is quantified over (or instantiated at) such a context.

All loops of the source are embedded with explicit fuel chosen to match the
bound the source itself enforces (buffer length for the decoders, the hard
segment bound of 100 for the live loop); the adaptive history loop, whose
iteration count depends on server behaviour, takes its fuel as a parameter.
-/

set_option linter.unusedVariables false

namespace DanmDown

/-- Runtime context: models the two Python runtime primitives used by the
source. `pyHash` stands for the builtin (per-process salted) `hash` on
strings, used by `DanmakuElement.get_unique_id`; `utf8` stands for
`bytes.decode` with the lenient fallback of `ProtobufDecoder.decode_string`. -/
structure Ctx where
  pyHash : String → Nat
  utf8 : List Nat → String

/-- Record shape built by `DanmakuElement.__init__` (src/main.py lines 17-29).
Field defaults follow the `data.get` defaults of the constructor. The
decoder may also produce an `idStr` dict key, but the constructor never
reads it, so it is not a field of the record. -/
structure DanmakuElement where
  id : Nat
  progress : Nat
  mode : Nat
  fontsize : Nat
  color : Nat
  ctime : Nat
  pool : Nat
  midHash : String
  content : String
  weight : Nat
deriving DecidableEq, Repr

/-- Fingerprint of a record, from `DanmakuElement.get_unique_id`
(src/main.py lines 37-40): the decimal rendering of progress-or-1, the
length of the text, and the salted author-hash reduced mod 2^32, joined by
underscores. -/
def DanmakuElement.get_unique_id (c : Ctx) (d : DanmakuElement) : String :=
  toString (if d.progress = 0 then 1 else d.progress) ++ "_" ++
    toString d.content.length ++ "_" ++ toString (c.pyHash d.midHash % 2 ^ 32)

/-- Inner loop of `ProtobufDecoder.decode_varint` (src/main.py lines 46-61).
The fuel counts the bytes still readable; the wrapper passes exactly
`data.length - pos`, which bounds the iteration count because every
iteration consumes one byte. At fuel zero the position is already at or
past the end, which is also the exit condition of the Python loop. -/
def decode_varintGo (data : List Nat) : Nat → Nat → Nat → Nat → Nat × Nat
  | 0, pos, result, _ => (result, pos)
  | fuel + 1, pos, result, shift =>
    if h : pos < data.length then
      let byte := data[pos]
      let result1 := result ||| ((byte &&& 0x7F) <<< shift)
      if byte &&& 0x80 = 0 then (result1, pos + 1)
      else decode_varintGo data fuel (pos + 1) result1 (shift + 7)
    else (result, pos)

/-- Entry point of `ProtobufDecoder.decode_varint`: start with result 0 and
shift 0 at the given offset. -/
def decode_varint (data : List Nat) (pos : Nat) : Nat × Nat :=
  decode_varintGo data (data.length - pos) pos 0 0

/-- Slice decoding of `ProtobufDecoder.decode_string` (src/main.py lines
63-69): take `length` bytes starting at `offset` and decode them leniently. -/
def decode_string (c : Ctx) (data : List Nat) (offset length : Nat) : String :=
  c.utf8 ((data.drop offset).take length)

/-- Dict built by `ProtobufDecoder.decode_danmaku_element` before it is fed
to the record constructor. A `some` field is a key present in the Python
dict. -/
structure ElemDict where
  id : Option Nat := none
  progress : Option Nat := none
  mode : Option Nat := none
  fontsize : Option Nat := none
  color : Option Nat := none
  ctime : Option Nat := none
  weight : Option Nat := none
  pool : Option Nat := none
  midHash : Option String := none
  content : Option String := none
  idStr : Option String := none
deriving DecidableEq, Repr

/-- Varint field map of `decode_danmaku_element` (src/main.py lines
117-120): field numbers 1,2,3,4,5,8,9,11 are stored, others dropped. -/
def ElemDict.setVarint (e : ElemDict) (fn v : Nat) : ElemDict :=
  if fn = 1 then { e with id := some v }
  else if fn = 2 then { e with progress := some v }
  else if fn = 3 then { e with mode := some v }
  else if fn = 4 then { e with fontsize := some v }
  else if fn = 5 then { e with color := some v }
  else if fn = 8 then { e with ctime := some v }
  else if fn = 9 then { e with weight := some v }
  else if fn = 11 then { e with pool := some v }
  else e

/-- String field map of `decode_danmaku_element` (src/main.py lines
125-127): field numbers 6,7,12 are stored, others dropped. -/
def ElemDict.setString (e : ElemDict) (fn : Nat) (s : String) : ElemDict :=
  if fn = 6 then { e with midHash := some s }
  else if fn = 7 then { e with content := some s }
  else if fn = 12 then { e with idStr := some s }
  else e

/-- Emptiness of the dict, deciding the Python truthiness test
`element if element else None`. -/
def ElemDict.isEmpty (e : ElemDict) : Bool :=
  e.id.isNone && e.progress.isNone && e.mode.isNone && e.fontsize.isNone &&
  e.color.isNone && e.ctime.isNone && e.weight.isNone && e.pool.isNone &&
  e.midHash.isNone && e.content.isNone && e.idStr.isNone

/-- Loop of `ProtobufDecoder.decode_danmaku_element` (src/main.py lines
103-134). Each iteration reads a tag varint; wire type 0 stores a varint
value through the field map, wire type 2 stores a decoded string slice,
and any other wire type ends the loop keeping whatever was parsed. The
fuel bounds the iterations (each one advances the position by at least one
byte when in range). -/
def decode_danmaku_elementGo (c : Ctx) (data : List Nat) :
    Nat → Nat → ElemDict → ElemDict
  | 0, _, e => e
  | fuel + 1, pos, e =>
    if pos < data.length then
      let ft := decode_varint data pos
      let fn := ft.1 >>> 3
      let wt := ft.1 &&& 7
      if wt = 0 then
        let vv := decode_varint data ft.2
        decode_danmaku_elementGo c data fuel vv.2 (e.setVarint fn vv.1)
      else if wt = 2 then
        let lv := decode_varint data ft.2
        let s := decode_string c data lv.2 lv.1
        decode_danmaku_elementGo c data fuel (lv.2 + lv.1) (e.setString fn s)
      else e
    else e

/-- Entry point of `decode_danmaku_element`: run the loop from position 0
on an empty dict and drop the result if no key was ever stored. -/
def decode_danmaku_element (c : Ctx) (data : List Nat) : Option ElemDict :=
  let e := decode_danmaku_elementGo c data data.length 0 {}
  if e.isEmpty then none else some e

/-- Record construction `DanmakuElement(danmaku_data)` from a decoded dict,
applying the constructor defaults (src/main.py lines 19-29). -/
def DanmakuElement.ofDict (e : ElemDict) : DanmakuElement :=
  { id := e.id.getD 0
    progress := e.progress.getD 0
    mode := e.mode.getD 1
    fontsize := e.fontsize.getD 25
    color := e.color.getD 16777215
    ctime := e.ctime.getD 0
    pool := e.pool.getD 0
    midHash := e.midHash.getD ""
    content := e.content.getD ""
    weight := e.weight.getD 0 }

/-- Loop of `ProtobufDecoder.decode_danmaku_response` (src/main.py lines
71-101). A tag with field number 1 and wire type 2 is an embedded record
sub-message (appended when its dict is non-empty); any other tag with wire
type 0 or 2 is skipped over; any other wire type ends the loop returning
the records collected so far. -/
def decode_danmaku_responseGo (c : Ctx) (data : List Nat) :
    Nat → Nat → List DanmakuElement → List DanmakuElement
  | 0, _, acc => acc
  | fuel + 1, pos, acc =>
    if pos < data.length then
      let ft := decode_varint data pos
      let fn := ft.1 >>> 3
      let wt := ft.1 &&& 7
      if fn = 1 ∧ wt = 2 then
        let lv := decode_varint data ft.2
        let sub := (data.drop lv.2).take lv.1
        match decode_danmaku_element c sub with
        | some d =>
          decode_danmaku_responseGo c data fuel (lv.2 + lv.1)
            (acc ++ [DanmakuElement.ofDict d])
        | none => decode_danmaku_responseGo c data fuel (lv.2 + lv.1) acc
      else if wt = 0 then
        decode_danmaku_responseGo c data fuel (decode_varint data ft.2).2 acc
      else if wt = 2 then
        let lv := decode_varint data ft.2
        decode_danmaku_responseGo c data fuel (lv.2 + lv.1) acc
      else acc
    else acc

/-- Entry point of `decode_danmaku_response`: run from position 0 with the
byte count as fuel (sufficient, since every iteration advances). -/
def decode_danmaku_response (c : Ctx) (data : List Nat) : List DanmakuElement :=
  decode_danmaku_responseGo c data data.length 0 []

/-- Python `set.add` on the duplicate-free list representing the session
fingerprint set `self.id_pool`: append only when absent. -/
def pyAdd (p : List String) (x : String) : List String :=
  if x ∈ p then p else p ++ [x]

/-- First phase of `merge_danmaku_in_place` (src/main.py lines 160-164): the
`hasattr(target_list, 'id_pool')` guard is always false for a Python list,
so every call re-adds the fingerprint of every element already in the
target list to the session pool. -/
def initPool (c : Ctx) (p : List String) (target : List DanmakuElement) : List String :=
  target.foldl (fun q d => pyAdd q (d.get_unique_id c)) p

/-- Second phase of `merge_danmaku_in_place` (src/main.py lines 166-170):
walk the incoming list; a record whose fingerprint is absent from the pool
is appended to the target and its fingerprint added, otherwise it is
dropped. Returns the final pool and target. -/
def mergeGo (c : Ctx) : List String → List DanmakuElement → List DanmakuElement →
    List String × List DanmakuElement
  | p, t, [] => (p, t)
  | p, t, d :: rest =>
    let uid := d.get_unique_id c
    if uid ∈ p then mergeGo c p t rest
    else mergeGo c (p ++ [uid]) (t ++ [d]) rest

/-- Whole of `merge_danmaku_in_place` over explicit pool state. -/
def merge_danmaku_in_place (c : Ctx) (p : List String)
    (target newList : List DanmakuElement) : List String × List DanmakuElement :=
  mergeGo c (initPool c p target) target newList

/-- Outcome of one HTTP request as the loops observe it: a status code with
a byte body, or an exception raised inside the surrounding `try`. -/
inductive Resp where
  | resp (status : Nat) (content : List Nat)
  | exn
deriving DecidableEq, Repr

/-- Result of the live segment loop: final session pool, accumulated
records, the log of segment indices actually requested, and the log of
politeness delays slept (in seconds). -/
structure SegResult where
  pool : List String
  danmaku_list : List DanmakuElement
  requests : List Nat
  sleeps : List Rat
deriving Repr

/-- Loop of `get_segmented_danmaku` (src/main.py lines 196-247), one fuel
unit per iteration of `while segment_index <= 100`. Stop conditions in
source order: transport exception, status 304, any other non-200 status,
empty body, zero decoded records, merge adding zero new records; otherwise
the index is incremented and a 0.5 second delay is logged. -/
def segGo (c : Ctx) (server : Nat → Resp) :
    Nat → Nat → List String → List DanmakuElement → List Nat → List Rat → SegResult
  | 0, _, p, acc, reqs, sl => ⟨p, acc, reqs, sl⟩
  | fuel + 1, idx, p, acc, reqs, sl =>
    if idx ≤ 100 then
      match server idx with
      | Resp.exn => ⟨p, acc, reqs ++ [idx], sl⟩
      | Resp.resp status content =>
        if status = 304 then ⟨p, acc, reqs ++ [idx], sl⟩
        else if status ≠ 200 then ⟨p, acc, reqs ++ [idx], sl⟩
        else if content.length = 0 then ⟨p, acc, reqs ++ [idx], sl⟩
        else
          let seg := decode_danmaku_response c content
          if seg.length = 0 then ⟨p, acc, reqs ++ [idx], sl⟩
          else
            let old := acc.length
            let m := merge_danmaku_in_place c p acc seg
            if m.2.length - old = 0 then ⟨m.1, m.2, reqs ++ [idx], sl⟩
            else segGo c server fuel (idx + 1) m.1 m.2 (reqs ++ [idx]) (sl ++ [(0.5 : Rat)])
    else ⟨p, acc, reqs, sl⟩

/-- Entry point of `get_segmented_danmaku`: index starts at 1, accumulator
empty, given the session pool. Fuel 100 covers every admissible index, so
the hard bound of the source is the binding bound. -/
def get_segmented_danmaku (c : Ctx) (server : Nat → Resp) (p : List String) : SegResult :=
  segGo c server 100 1 p [] [] []

/-- Calendar-date key of an instant held as epoch seconds: the query URL
uses only the `YYYY-MM-DD` rendering of the datetime, identified here with
the floor day number. -/
def dayOf (t : Int) : Int :=
  Int.fdiv t 86400

/-- Minimum creation time over a batch, `min(d.ctime for d in ldanmu)`
(src/main.py line 313); only ever applied to non-empty batches. -/
def minCtime : List DanmakuElement → Int
  | [] => 0
  | d :: rest => rest.foldl (fun m e => min m (e.ctime : Int)) (d.ctime : Int)

/-- Value taken by `ldanmu` after one history request (src/main.py lines
295-339): the decoded body on a 200 response with a non-empty body, and
the empty list on every other outcome (non-200 status including the 412
verification case, empty body, transport exception). -/
def histRespBatch (c : Ctx) : Resp → List DanmakuElement
  | Resp.exn => []
  | Resp.resp status content =>
    if status = 200 then
      if content.length = 0 then [] else decode_danmaku_response c content
    else []

/-- Mutable state of the history traversal loop of
`get_history_danmaku_js_style`: the session pool, the accumulated history
records `aldanmu`, the last batch `ldanmu`, the boundary epoch
`first_date` (0 = uninitialized), the current query instant, and the logs
of requested day numbers and politeness delays. -/
structure HistState where
  pool : List String
  aldanmu : List DanmakuElement
  ldanmu : List DanmakuElement
  first_date : Int
  current_date : Int
  requests : List Int
  sleeps : List Rat
deriving Repr

/-- One iteration of the history loop (src/main.py lines 283-348). Returns
`false` when the loop ends at this iteration (either the `while` guard
fails or the density check breaks) together with the state at that point,
and `true` with the successor state otherwise. The density threshold
`len(ldanmu) >= min(ondanmu, 5000) * 0.5` is embedded exactly as
`2 * len >= min ondanmu 5000` over the integers. -/
def histStep (c : Ctx) (server : Int → Resp) (start_date ond : Int) (s : HistState) :
    Bool × HistState :=
  if s.current_date < start_date then (false, s)
  else
    let sl1 := if s.first_date ≠ 0 then s.sleeps ++ [(2 : Rat)] else s.sleeps
    let s1 :=
      if s.first_date = 0 ∨ 2 * (s.ldanmu.length : Int) ≥ min ond 5000 then
        let d := dayOf s.current_date
        let batch := histRespBatch c (server d)
        if batch.length = 0 then
          { pool := s.pool, aldanmu := s.aldanmu, ldanmu := [],
            first_date := s.first_date, current_date := s.current_date,
            requests := s.requests ++ [d], sleeps := sl1 }
        else
          let m := merge_danmaku_in_place c s.pool s.aldanmu batch
          let minc := minCtime batch
          let tf := if s.first_date ≠ 0 ∧ s.first_date - minc < 86400
                    then minc - 86400 else minc
          { pool := m.1, aldanmu := m.2, ldanmu := batch,
            first_date := tf, current_date := tf,
            requests := s.requests ++ [d], sleeps := sl1 }
      else
        { pool := s.pool, aldanmu := s.aldanmu, ldanmu := s.ldanmu,
          first_date := s.first_date, current_date := s.current_date,
          requests := s.requests, sleeps := sl1 }
    if 2 * (s1.ldanmu.length : Int) < min ond 5000 then (false, s1)
    else
      (true,
        { s1 with current_date :=
            if s1.first_date = 0 then s1.current_date - 86400 else s1.current_date })

/-- Fuel-driven run of the history loop. The second component is `true`
when the loop ended by its own logic and `false` when the fuel ran out
first. -/
def histGo (c : Ctx) (server : Int → Resp) (start_date ond : Int) :
    Nat → HistState → HistState × Bool
  | 0, s => (s, false)
  | fuel + 1, s =>
    match histStep c server start_date ond s with
    | (false, s1) => (s1, true)
    | (true, s1) => histGo c server start_date ond fuel s1

/-- Whole of `get_history_danmaku_js_style` (src/main.py lines 249-351)
over an explicit clock `now` and session pool. A missing publish date
returns immediately with no request. Both branches of the `end_days` test
(lines 270-276) initialize the query instant to yesterday. -/
def get_history_danmaku_js_style (c : Ctx) (server : Int → Resp) (now : Int)
    (video_date : Option Int) (start_days end_days target_count : Int)
    (p : List String) (fuel : Nat) : HistState × Bool :=
  match video_date with
  | none => (⟨p, [], [], 0, 0, [], []⟩, true)
  | some base_date =>
    let current_date := if end_days ≠ -1 then now - 86400 else now - 86400
    let start_date := base_date + start_days * 86400
    histGo c server start_date target_count fuel
      ⟨p, [], [], 0, current_date, [], []⟩

/-- Probe of `get_current_danmaku_info` (src/main.py lines 172-194), given
the response of the first live segment: on a 200 response with a non-empty
body that decodes to at least one record, the estimate is twenty times the
sample size; every other outcome falls back to the default 5000. The
returned sample list is the empty list on every path of the source. -/
def get_current_danmaku_info (c : Ctx) (probe : Resp) : Int × List DanmakuElement :=
  match probe with
  | Resp.exn => (5000, [])
  | Resp.resp status content =>
    if status = 200 ∧ 0 < content.length then
      let first_segment := decode_danmaku_response c content
      if first_segment.length ≠ 0 then ((first_segment.length : Int) * 20, [])
      else (5000, [])
    else (5000, [])

/-- Final three-way merge loop of `get_complete_danmaku_js_style`
(src/main.py lines 395-399): a fresh pool, append a record only when its
fingerprint is new. -/
def dedupGo (c : Ctx) : List String → List DanmakuElement → List DanmakuElement →
    List String × List DanmakuElement
  | p, out, [] => (p, out)
  | p, out, d :: rest =>
    let uid := d.get_unique_id c
    if uid ∈ p then dedupGo c p out rest
    else dedupGo c (p ++ [uid]) (out ++ [d]) rest

/-- Stable ascending insertion by playback offset, modelling the stable
`danmaku_list.sort(key=lambda x: x.progress)` performed by
`save_danmaku_xml` (src/main.py line 410). -/
def insertByProgress (d : DanmakuElement) : List DanmakuElement → List DanmakuElement
  | [] => [d]
  | e :: rest =>
    if e.progress < d.progress then e :: insertByProgress d rest
    else d :: e :: rest

/-- Offset sort applied to the final record list before serialization. -/
def save_danmaku_sort (l : List DanmakuElement) : List DanmakuElement :=
  l.foldr insertByProgress []

/-- Observable outcome of the orchestrator: the merged record list, the
request logs of both acquisition loops, and whether the history phase ran
at all. -/
structure CompleteResult where
  merged : List DanmakuElement
  segRequests : List Nat
  histRequests : List Int
  histRan : Bool
deriving Repr

/-- Whole of `get_complete_danmaku_js_style` (src/main.py lines 353-405):
default the end offset, probe the density estimate, run the live segment
loop on the session pool, optionally run the history loop sharing that
pool, then merge probe sample, live list and history list in order through
a fresh pool. The probe reuses the live endpoint at index 1, so its
response is `segServer 1`. -/
def get_complete_danmaku_js_style (c : Ctx) (segServer : Nat → Resp)
    (histServer : Int → Resp) (now : Int) (video_date : Option Int)
    (start_days : Int) (end_days : Option Int) (histFuel : Nat) : CompleteResult :=
  let ed : Int :=
    match end_days with
    | some e => e
    | none =>
      match video_date with
      | some _ => 1
      | none => -1
  let info := get_current_danmaku_info c (segServer 1)
  let maxlimit := info.1
  let current_danmaku := info.2
  let lists0 : List (List DanmakuElement) :=
    if current_danmaku.length ≠ 0 then [current_danmaku] else []
  let segR := get_segmented_danmaku c segServer []
  let lists1 :=
    if segR.danmaku_list.length ≠ 0 then lists0 ++ [segR.danmaku_list] else lists0
  let histR : Option (HistState × Bool) :=
    match video_date with
    | some _ =>
      if 0 < maxlimit then
        some (get_history_danmaku_js_style c histServer now video_date
          start_days ed maxlimit segR.pool histFuel)
      else none
    | none => none
  let lists2 :=
    match histR with
    | some hr => if hr.1.aldanmu.length ≠ 0 then lists1 ++ [hr.1.aldanmu] else lists1
    | none => lists1
  let fin := lists2.foldl (fun st l => dedupGo c st.1 st.2 l)
    (([] : List String), ([] : List DanmakuElement))
  { merged := fin.2
    segRequests := segR.requests
    histRequests :=
      match histR with
      | some hr => hr.1.requests
      | none => []
    histRan := histR.isSome }

/-- Which accumulator a merge call of one crawl session feeds: the live
segment list or the history list. Both calls share the single session
pool `self.id_pool`. -/
inductive MergeTarget where
  | live
  | hist
deriving DecidableEq, Repr

/-- State of one crawl session as far as the merge operation is concerned:
the shared fingerprint pool and the two accumulators it feeds. -/
structure Session where
  pool : List String
  live : List DanmakuElement
  hist : List DanmakuElement
deriving Repr

/-- One merge call of the session: `merge_danmaku_in_place` into the chosen
accumulator, threading the shared pool. -/
def sessionStep (c : Ctx) (s : Session) : MergeTarget × List DanmakuElement → Session
  | (MergeTarget.live, xs) =>
    let m := merge_danmaku_in_place c s.pool s.live xs
    ⟨m.1, m.2, s.hist⟩
  | (MergeTarget.hist, xs) =>
    let m := merge_danmaku_in_place c s.pool s.hist xs
    ⟨m.1, s.live, m.2⟩

/-- A crawl session: start from the fresh state of
`BilibiliDanmakuDownloader.__init__` (empty pool, empty accumulators) and
apply a sequence of merge calls. -/
def sessionRun (c : Ctx) (ops : List (MergeTarget × List DanmakuElement)) : Session :=
  ops.foldl (sessionStep c) ⟨[], [], []⟩

/-- Concrete context used by witnesses and counterexamples: a constant
string hash and a codec that is never consulted by the payloads involved. -/
def c0 : Ctx :=
  ⟨fun _ => 0, fun _ => ""⟩

/-- Concrete record with a chosen offset and every other field at the
constructor default. -/
def mkElem (pr : Nat) : DanmakuElement :=
  { id := 0, progress := pr, mode := 1, fontsize := 25, color := 16777215,
    ctime := 0, pool := 0, midHash := "", content := "", weight := 0 }

/-- Server that answers every live segment index with a well-formed payload
carrying one record whose offset equals the index, so every batch is
non-empty and brings a fresh fingerprint. -/
def freshSegServer (i : Nat) : Resp :=
  Resp.resp 200 [10, 2, 16, i]

/-- Server whose history batches contain one record with creation time 0,
driving the retargeted boundary epoch to 0. -/
def zeroCtimeServer (_ : Int) : Resp :=
  Resp.resp 200 [10, 2, 16, 5]

/-- Server that fails every request with a plain HTTP error. -/
def errorServer (_ : Int) : Resp :=
  Resp.resp 404 []

/-- History state about to issue its first request on day 3 of the epoch,
with an uninitialized boundary. -/
def sC2 : HistState :=
  ⟨[], [], [], 0, 259200, [], []⟩

/-- Server that answers every live segment with a not-modified status. -/
def resp304Server (_ : Nat) : Resp :=
  Resp.resp 304 [1]

/-- Server whose every request raises inside the transport layer. -/
def exnSegServer (_ : Nat) : Resp :=
  Resp.exn

/-- Invariant tying the shared session pool to the accumulators it feeds:
every stored record has its fingerprint in the pool, the stored
fingerprints are pairwise distinct across both accumulators, and the pool
size counts the records of both accumulators together. -/
def SessionInv (c : Ctx) (s : Session) : Prop :=
  (∀ d ∈ s.live ++ s.hist, d.get_unique_id c ∈ s.pool) ∧
  ((s.live ++ s.hist).map (fun d => d.get_unique_id c)).Nodup ∧
  s.pool.length = s.live.length + s.hist.length

section MergeLemmas

variable {c : Ctx}

theorem mem_pyAdd_self (p : List String) (x : String) : x ∈ pyAdd p x := by
  unfold pyAdd
  by_cases h : x ∈ p
  · simp [h]
  · simp [h]

theorem mem_pyAdd_of_mem {p : List String} {u : String} (x : String) (h : u ∈ p) :
    u ∈ pyAdd p x := by
  unfold pyAdd
  by_cases hx : x ∈ p <;> simp [hx, h]

theorem initPool_mono {p : List String} {u : String} (t : List DanmakuElement)
    (h : u ∈ p) : u ∈ initPool c p t := by
  induction t generalizing p with
  | nil => simpa [initPool] using h
  | cons d rest ih =>
    simpa [initPool] using ih (mem_pyAdd_of_mem _ h)

theorem initPool_mem_target (p : List String) (t : List DanmakuElement) :
    ∀ d ∈ t, d.get_unique_id c ∈ initPool c p t := by
  induction t generalizing p with
  | nil => intro d hd; cases hd
  | cons e rest ih =>
    intro d hd
    rcases List.mem_cons.mp hd with h | h
    · subst h
      simpa [initPool] using
        initPool_mono (c := c) rest (mem_pyAdd_self p (d.get_unique_id c))
    · simpa [initPool] using ih (pyAdd p (e.get_unique_id c)) d h

theorem initPool_id {p : List String} {t : List DanmakuElement}
    (h : ∀ d ∈ t, d.get_unique_id c ∈ p) : initPool c p t = p := by
  induction t generalizing p with
  | nil => rfl
  | cons e rest ih =>
    have he : pyAdd p (e.get_unique_id c) = p := by
      unfold pyAdd
      simp [h e (by simp)]
    simp only [initPool, List.foldl_cons]
    rw [he]
    exact ih fun d hd => h d (by simp [hd])

theorem mergeGo_spec (xs : List DanmakuElement) :
    ∀ p t, ∃ f, (mergeGo c p t xs).2 = t ++ f ∧
      (mergeGo c p t xs).1 = p ++ f.map (fun d => d.get_unique_id c) ∧
      (f.map (fun d => d.get_unique_id c)).Nodup ∧
      ∀ u ∈ f.map (fun d => d.get_unique_id c), u ∉ p := by
  induction xs with
  | nil => intro p t; exact ⟨[], by simp [mergeGo]⟩
  | cons d rest ih =>
    intro p t
    by_cases h : d.get_unique_id c ∈ p
    · obtain ⟨f, h1, h2, h3, h4⟩ := ih p t
      exact ⟨f, by simpa [mergeGo, h] using h1, by simpa [mergeGo, h] using h2, h3, h4⟩
    · obtain ⟨f, h1, h2, h3, h4⟩ := ih (p ++ [d.get_unique_id c]) (t ++ [d])
      refine ⟨d :: f, ?_, ?_, ?_, ?_⟩
      · simp only [mergeGo]
        rw [if_neg h, h1]
        simp
      · simp only [mergeGo]
        rw [if_neg h, h2]
        simp
      · refine List.nodup_cons.mpr ⟨?_, h3⟩
        intro hc
        exact h4 _ hc (by simp)
      · intro u hu
        rcases List.mem_cons.mp hu with h5 | h5
        · subst h5; exact h
        · intro hp
          exact h4 u h5 (by simp [hp])

theorem mergeGo_pool_mono {p : List String} {u : String}
    (t xs : List DanmakuElement) (h : u ∈ p) : u ∈ (mergeGo c p t xs).1 := by
  obtain ⟨f, _, h2, _, _⟩ := mergeGo_spec (c := c) xs p t
  rw [h2]
  exact List.mem_append_left _ h

theorem mergeGo_mem_uid (xs : List DanmakuElement) :
    ∀ p t, ∀ d ∈ xs, d.get_unique_id c ∈ (mergeGo c p t xs).1 := by
  induction xs with
  | nil => intro p t d hd; cases hd
  | cons e rest ih =>
    intro p t d hd
    by_cases h : e.get_unique_id c ∈ p
    · rcases List.mem_cons.mp hd with h5 | h5
      · subst h5
        simpa [mergeGo, h] using mergeGo_pool_mono (c := c) t rest h
      · simpa [mergeGo, h] using ih p t d h5
    · rcases List.mem_cons.mp hd with h5 | h5
      · subst h5
        simpa [mergeGo, h] using
          mergeGo_pool_mono (c := c) (t ++ [d]) rest
            (List.mem_append_right _ (by simp))
      · simpa [mergeGo, h] using ih (p ++ [e.get_unique_id c]) (t ++ [e]) d h5

theorem mergeGo_skip_all {p : List String} {t xs : List DanmakuElement}
    (h : ∀ d ∈ xs, d.get_unique_id c ∈ p) : mergeGo c p t xs = (p, t) := by
  induction xs with
  | nil => rfl
  | cons e rest ih =>
    have he : e.get_unique_id c ∈ p := h e (by simp)
    simp only [mergeGo, he, if_pos]
    exact ih fun d hd => h d (by simp [hd])

theorem merge_in_place_spec (p : List String) (t xs : List DanmakuElement) :
    ∃ f, (merge_danmaku_in_place c p t xs).2 = t ++ f ∧
      (merge_danmaku_in_place c p t xs).1 =
        initPool c p t ++ f.map (fun d => d.get_unique_id c) := by
  obtain ⟨f, h1, h2, _, _⟩ := mergeGo_spec (c := c) xs (initPool c p t) t
  exact ⟨f, h1, h2⟩

theorem merge_in_place_target_mem (p : List String) (t xs : List DanmakuElement) :
    ∀ d ∈ (merge_danmaku_in_place c p t xs).2,
      d.get_unique_id c ∈ (merge_danmaku_in_place c p t xs).1 := by
  obtain ⟨f, h1, h2, _, _⟩ := mergeGo_spec (c := c) xs (initPool c p t) t
  intro d hd
  unfold merge_danmaku_in_place at hd ⊢
  rw [h1] at hd
  rw [h2]
  rcases List.mem_append.mp hd with h | h
  · exact List.mem_append_left _ (initPool_mem_target p t d h)
  · exact List.mem_append_right _ (List.mem_map_of_mem _ h)

theorem merge_in_place_incoming_mem (p : List String) (t xs : List DanmakuElement) :
    ∀ d ∈ xs, d.get_unique_id c ∈ (merge_danmaku_in_place c p t xs).1 := by
  intro d hd
  exact mergeGo_mem_uid (c := c) xs (initPool c p t) t d hd

theorem merge_in_place_idem (p : List String) (t xs : List DanmakuElement) :
    merge_danmaku_in_place c (merge_danmaku_in_place c p t xs).1
      (merge_danmaku_in_place c p t xs).2 xs = merge_danmaku_in_place c p t xs := by
  have hinit : initPool c (merge_danmaku_in_place c p t xs).1
      (merge_danmaku_in_place c p t xs).2 = (merge_danmaku_in_place c p t xs).1 :=
    initPool_id (merge_in_place_target_mem p t xs)
  unfold merge_danmaku_in_place at hinit ⊢
  rw [hinit]
  exact mergeGo_skip_all fun d hd =>
    merge_in_place_incoming_mem (c := c) p t xs d hd

end MergeLemmas

section SessionLemmas

variable {c : Ctx}

theorem uid_nodup_extend {l1 l2 f : List DanmakuElement} {p : List String}
    (hmem : ∀ d ∈ l1 ++ l2, d.get_unique_id c ∈ p)
    (hnd : ((l1 ++ l2).map (fun d => d.get_unique_id c)).Nodup)
    (h3 : (f.map (fun d => d.get_unique_id c)).Nodup)
    (h4 : ∀ u ∈ f.map (fun d => d.get_unique_id c), u ∉ p) :
    ((l1 ++ l2 ++ f).map (fun d => d.get_unique_id c)).Nodup := by
  rw [List.map_append]
  rw [List.nodup_append]
  refine ⟨hnd, h3, ?_⟩
  intro u hu huf
  obtain ⟨d, hd, rfl⟩ := List.mem_map.mp hu
  exact h4 _ huf (hmem d hd)

theorem sessionStep_inv {s : Session} (op : MergeTarget × List DanmakuElement)
    (h : SessionInv c s) : SessionInv c (sessionStep c s op) := by
  obtain ⟨hmem, hnd, hlen⟩ := h
  obtain ⟨tgt, xs⟩ := op
  have hilive : initPool c s.pool s.live = s.pool :=
    initPool_id fun d hd => hmem d (List.mem_append_left _ hd)
  have hihist : initPool c s.pool s.hist = s.pool :=
    initPool_id fun d hd => hmem d (List.mem_append_right _ hd)
  cases tgt with
  | live =>
    obtain ⟨f, h1, h2, h3, h4⟩ := mergeGo_spec (c := c) xs s.pool s.live
    simp only [sessionStep, merge_danmaku_in_place, hilive]
    rw [h1, h2]
    refine ⟨?_, ?_, ?_⟩
    · intro d hd
      rcases List.mem_append.mp hd with hdl | hdh
      · rcases List.mem_append.mp hdl with hdl2 | hdf
        · exact List.mem_append_left _ (hmem d (List.mem_append_left _ hdl2))
        · exact List.mem_append_right _ (List.mem_map_of_mem _ hdf)
      · exact List.mem_append_left _ (hmem d (List.mem_append_right _ hdh))
    · have hperm : (s.live ++ f ++ s.hist).Perm (s.live ++ s.hist ++ f) := by
        rw [List.append_assoc, List.append_assoc]
        exact List.Perm.append_left s.live List.perm_append_comm
      exact ((hperm.map (fun d => d.get_unique_id c)).symm).nodup
        (uid_nodup_extend hmem hnd h3 h4)
    · simp only [List.length_append, List.length_map]
      omega
  | hist =>
    obtain ⟨f, h1, h2, h3, h4⟩ := mergeGo_spec (c := c) xs s.pool s.hist
    simp only [sessionStep, merge_danmaku_in_place, hihist]
    rw [h1, h2]
    refine ⟨?_, ?_, ?_⟩
    · intro d hd
      rcases List.mem_append.mp hd with hdl | hdh
      · exact List.mem_append_left _ (hmem d (List.mem_append_left _ hdl))
      · rcases List.mem_append.mp hdh with hdh2 | hdf
        · exact List.mem_append_left _ (hmem d (List.mem_append_right _ hdh2))
        · exact List.mem_append_right _ (List.mem_map_of_mem _ hdf)
    · have heq : s.live ++ (s.hist ++ f) = s.live ++ s.hist ++ f := by
        rw [List.append_assoc]
      rw [heq]
      exact uid_nodup_extend hmem hnd h3 h4
    · simp only [List.length_append, List.length_map]
      omega

theorem sessionRun_inv (ops : List (MergeTarget × List DanmakuElement)) :
    SessionInv c (sessionRun c ops) := by
  have base : SessionInv c ⟨[], [], []⟩ := by
    refine ⟨?_, ?_, ?_⟩ <;> simp
  have step : ∀ (l : List (MergeTarget × List DanmakuElement)) (s : Session),
      SessionInv c s → SessionInv c (l.foldl (sessionStep c) s) := by
    intro l
    induction l with
    | nil => intro s hs; exact hs
    | cons op rest ih =>
      intro s hs
      exact ih _ (sessionStep_inv op hs)
  exact step ops _ base

theorem sessionRun_live_only (ops : List (MergeTarget × List DanmakuElement))
    (h : ∀ op ∈ ops, op.1 = MergeTarget.live) : (sessionRun c ops).hist = [] := by
  have step : ∀ (l : List (MergeTarget × List DanmakuElement)) (s : Session),
      (∀ op ∈ l, op.1 = MergeTarget.live) → s.hist = [] →
      (l.foldl (sessionStep c) s).hist = [] := by
    intro l
    induction l with
    | nil => intro s _ hs; exact hs
    | cons op rest ih =>
      intro s hl hs
      obtain ⟨tgt, xs⟩ := op
      have htgt : tgt = MergeTarget.live := hl (tgt, xs) (List.mem_cons_self _ _)
      subst htgt
      exact ih _ (fun o ho => hl o (List.mem_cons_of_mem _ ho)) (by simp [sessionStep, hs])
  exact step ops _ h rfl

end SessionLemmas

/-- C1 (amended): within one crawl session, every accumulator fed by the
merge operation holds records with pairwise distinct fingerprints, and the
size of the single shared pool equals the total number of records across
the accumulators; the per-accumulator equality of the original claim holds
for a session whose merge calls all feed one accumulator. -/
theorem claim_C1 (c : Ctx) (ops : List (MergeTarget × List DanmakuElement)) :
    ((sessionRun c ops).live.map (fun d => d.get_unique_id c)).Nodup ∧
    ((sessionRun c ops).hist.map (fun d => d.get_unique_id c)).Nodup ∧
    (sessionRun c ops).pool.length =
      (sessionRun c ops).live.length + (sessionRun c ops).hist.length ∧
    ((∀ op ∈ ops, op.1 = MergeTarget.live) →
      (sessionRun c ops).pool.length = (sessionRun c ops).live.length) := by
  obtain ⟨hmem, hnd, hlen⟩ := sessionRun_inv (c := c) ops
  rw [List.map_append, List.nodup_append] at hnd
  refine ⟨hnd.1, hnd.2.1, hlen, ?_⟩
  intro hops
  have hh := sessionRun_live_only (c := c) ops hops
  rw [hh] at hlen
  simpa using hlen

/-- C1 witness: a session feeding only the live accumulator does satisfy
the pool-size equality of the claim. -/
theorem claim_C1_witness :
    (sessionRun c0 [(MergeTarget.live, [mkElem 1])]).pool.length =
      (sessionRun c0 [(MergeTarget.live, [mkElem 1])]).live.length :=
  (claim_C1 c0 [(MergeTarget.live, [mkElem 1])]).2.2.2 (by decide)

/-- C1 counterexample: one session merge into the live accumulator followed
by one into the history accumulator leaves the history accumulator with one
record while the shared pool holds two fingerprints, so the claimed
equality between every accumulator size and the pool size fails. -/
theorem claim_C1_counterexample :
    ¬ ((sessionRun c0 [(MergeTarget.live, [mkElem 1]),
          (MergeTarget.hist, [mkElem 2])]).hist.length =
        (sessionRun c0 [(MergeTarget.live, [mkElem 1]),
          (MergeTarget.hist, [mkElem 2])]).pool.length) := by
  decide

/-- C5: the merge operation appends a record exactly when its fingerprint
is absent from the pool (adding the fingerprint in that case and skipping
the record otherwise, so the first record carrying a fingerprint wins),
never disturbs the existing accumulator prefix, and is idempotent on both
the accumulator and the pool. -/
theorem claim_C5 :
    (∀ (c : Ctx) (p : List String) (t : List DanmakuElement)
        (d : DanmakuElement) (rest : List DanmakuElement),
        d.get_unique_id c ∈ p → mergeGo c p t (d :: rest) = mergeGo c p t rest) ∧
    (∀ (c : Ctx) (p : List String) (t : List DanmakuElement)
        (d : DanmakuElement) (rest : List DanmakuElement),
        d.get_unique_id c ∉ p →
        mergeGo c p t (d :: rest) =
          mergeGo c (p ++ [d.get_unique_id c]) (t ++ [d]) rest) ∧
    (∀ (c : Ctx) (p : List String) (t xs : List DanmakuElement),
        ∃ f, (merge_danmaku_in_place c p t xs).2 = t ++ f) ∧
    (∀ (c : Ctx) (p : List String) (t xs : List DanmakuElement),
        merge_danmaku_in_place c (merge_danmaku_in_place c p t xs).1
          (merge_danmaku_in_place c p t xs).2 xs =
          merge_danmaku_in_place c p t xs) := by
  refine ⟨?_, ?_, ?_, ?_⟩
  · intro c p t d rest h
    simp [mergeGo, h]
  · intro c p t d rest h
    simp [mergeGo, h]
  · intro c p t xs
    obtain ⟨f, h1, _⟩ := merge_in_place_spec (c := c) p t xs
    exact ⟨f, h1⟩
  · intro c p t xs
    exact merge_in_place_idem (c := c) p t xs

/-- C5 witness: at a concrete pool already holding the fingerprint of the
incoming record, the merge step drops the record. -/
theorem claim_C5_witness :
    mergeGo c0 ["1_0_0"] [] [mkElem 1] = mergeGo c0 ["1_0_0"] [] [] :=
  claim_C5.1 c0 ["1_0_0"] [] (mkElem 1) [] (by decide)

/-- C10: the history fetch is independent of the endDaysOffset argument;
both branches of the end-days test initialize the query instant to
yesterday, and the argument is never used again, so the whole run (state,
records and request log alike) is identical for any two values. -/
theorem claim_C10 (c : Ctx) (server : Int → Resp) (now : Int)
    (video_date : Option Int) (start_days target_count : Int)
    (p : List String) (fuel : Nat) (e1 e2 : Int) :
    get_history_danmaku_js_style c server now video_date start_days e1
        target_count p fuel =
      get_history_danmaku_js_style c server now video_date start_days e2
        target_count p fuel := by
  cases video_date with
  | none => rfl
  | some vd => simp [get_history_danmaku_js_style]

/-- C2 (amended): after every non-empty decoded batch the boundary epoch is
re-targeted exactly as claimed (minCreated - 86400 when the old boundary is
non-zero and within a day of minCreated, minCreated otherwise), and the
query instant is set to the new boundary epoch - except when the loop
continues with a re-targeted boundary of exactly 0, where the fallback
decrement moves the next query date one further day back. -/
theorem claim_C2 (c : Ctx) (server : Int → Resp) (start_date ond : Int)
    (s : HistState) (hwhile : ¬ s.current_date < start_date)
    (hgate : s.first_date = 0 ∨ 2 * (s.ldanmu.length : Int) ≥ min ond 5000)
    (hbatch : (histRespBatch c (server (dayOf s.current_date))).length ≠ 0) :
    (histStep c server start_date ond s).2.first_date =
      (if s.first_date ≠ 0 ∧
          s.first_date - minCtime (histRespBatch c (server (dayOf s.current_date)))
            < 86400
        then minCtime (histRespBatch c (server (dayOf s.current_date))) - 86400
        else minCtime (histRespBatch c (server (dayOf s.current_date)))) ∧
    ((histStep c server start_date ond s).1 = false →
      (histStep c server start_date ond s).2.current_date =
        (histStep c server start_date ond s).2.first_date) ∧
    ((histStep c server start_date ond s).1 = true →
      (histStep c server start_date ond s).2.current_date =
        (if (histStep c server start_date ond s).2.first_date = 0
          then (histStep c server start_date ond s).2.first_date - 86400
          else (histStep c server start_date ond s).2.first_date)) := by
  simp only [histStep, hwhile, hgate, hbatch, if_false, if_true, ite_true,
    ite_false, eq_self_iff_true, not_false_iff]
  by_cases hd : 2 * (((histRespBatch c (server (dayOf s.current_date))).length : Int))
      < min ond 5000 <;>
    simp [hd]

/-- C2 witness: on a concrete non-empty batch the re-targeted boundary
epoch is exactly the claimed conditional expression. -/
theorem claim_C2_witness :
    (histStep c0 zeroCtimeServer (-864000) 1 sC2).2.first_date =
      (if sC2.first_date ≠ 0 ∧
          sC2.first_date - minCtime (histRespBatch c0 (zeroCtimeServer (dayOf sC2.current_date)))
            < 86400
        then minCtime (histRespBatch c0 (zeroCtimeServer (dayOf sC2.current_date))) - 86400
        else minCtime (histRespBatch c0 (zeroCtimeServer (dayOf sC2.current_date)))) :=
  (claim_C2 c0 zeroCtimeServer (-864000) 1 sC2 (by decide) (by decide) (by decide)).1

/-- C2 counterexample: a non-empty batch whose minimum creation time is 0
re-targets the boundary epoch to 0; the loop continues, yet the next query
date is calendar day -1 rather than the boundary epoch's own calendar day
0, because the uninitialized-boundary fallback decrements one extra day. -/
theorem claim_C2_counterexample :
    (histStep c0 zeroCtimeServer (-864000) 1 sC2).1 = true ∧
    (histStep c0 zeroCtimeServer (-864000) 1 sC2).2.first_date = 0 ∧
    dayOf (histStep c0 zeroCtimeServer (-864000) 1 sC2).2.current_date = -1 ∧
    dayOf (0 : Int) = 0 := by
  decide

/-- C3: the history loop issues a request in an iteration exactly when the
boundary epoch is uninitialized or the last batch meets the density
threshold; an iteration that skips the request always terminates the loop
at its density check (so no two consecutive iterations go without a
request); every continuing iteration issued a request; and a first batch
below the threshold stops the whole traversal after exactly one request. -/
theorem claim_C3 :
    (∀ (c : Ctx) (server : Int → Resp) (start_date ond : Int) (s : HistState),
      ¬ s.current_date < start_date →
      ((s.first_date = 0 ∨ 2 * (s.ldanmu.length : Int) ≥ min ond 5000) →
        (histStep c server start_date ond s).2.requests =
          s.requests ++ [dayOf s.current_date]) ∧
      (¬ (s.first_date = 0 ∨ 2 * (s.ldanmu.length : Int) ≥ min ond 5000) →
        (histStep c server start_date ond s).2.requests = s.requests ∧
        (histStep c server start_date ond s).1 = false)) ∧
    (∀ (c : Ctx) (server : Int → Resp) (start_date ond : Int) (s : HistState),
      (histStep c server start_date ond s).1 = true →
      (histStep c server start_date ond s).2.requests =
        s.requests ++ [dayOf s.current_date]) ∧
    (∀ (c : Ctx) (server : Int → Resp) (now vd start_days end_days tc : Int)
        (p : List String) (fuel : Nat),
      ¬ now - 86400 < vd + start_days * 86400 →
      2 * ((histRespBatch c (server (dayOf (now - 86400)))).length : Int)
          < min tc 5000 →
      (get_history_danmaku_js_style c server now (some vd) start_days end_days
          tc p (fuel + 1)).2 = true ∧
      (get_history_danmaku_js_style c server now (some vd) start_days end_days
          tc p (fuel + 1)).1.requests = [dayOf (now - 86400)]) := by
  have hgate_true : ∀ (c : Ctx) (server : Int → Resp) (start_date ond : Int)
      (s : HistState), ¬ s.current_date < start_date →
      (s.first_date = 0 ∨ 2 * (s.ldanmu.length : Int) ≥ min ond 5000) →
      (histStep c server start_date ond s).2.requests =
        s.requests ++ [dayOf s.current_date] := by
    intro c server start_date ond s hwhile hgate
    simp only [histStep, hwhile, hgate, if_false, if_true, ite_true, ite_false]
    by_cases hb : (histRespBatch c (server (dayOf s.current_date))).length = 0
    · simp [hb]
      split <;> simp
    · simp [hb]
      split <;> simp
  have hgate_false : ∀ (c : Ctx) (server : Int → Resp) (start_date ond : Int)
      (s : HistState), ¬ s.current_date < start_date →
      ¬ (s.first_date = 0 ∨ 2 * (s.ldanmu.length : Int) ≥ min ond 5000) →
      (histStep c server start_date ond s).2.requests = s.requests ∧
      (histStep c server start_date ond s).1 = false := by
    intro c server start_date ond s hwhile hgate
    have hdens : 2 * ((s.ldanmu.length : Int)) < min ond 5000 := by
      push_neg at hgate
      exact hgate.2
    simp only [histStep, hwhile, hgate, if_false, if_true, ite_true, ite_false]
    simp [hdens]
  refine ⟨?_, ?_, ?_⟩
  · intro c server start_date ond s hwhile
    exact ⟨hgate_true c server start_date ond s hwhile,
      hgate_false c server start_date ond s hwhile⟩
  · intro c server start_date ond s hcont
    by_cases hwhile : s.current_date < start_date
    · exfalso
      simp [histStep, hwhile] at hcont
    · by_cases hgate : s.first_date = 0 ∨ 2 * (s.ldanmu.length : Int) ≥ min ond 5000
      · exact hgate_true c server start_date ond s hwhile hgate
      · exfalso
        have := (hgate_false c server start_date ond s hwhile hgate).2
        rw [hcont] at this
        cases this
  · intro c server now vd start_days end_days tc p fuel hwhile hlow
    have hkey : (histStep c server (vd + start_days * 86400) tc
          ⟨p, [], [], 0, now - 86400, [], []⟩).1 = false ∧
        (histStep c server (vd + start_days * 86400) tc
          ⟨p, [], [], 0, now - 86400, [], []⟩).2.requests = [dayOf (now - 86400)] := by
      simp only [histStep, hwhile, if_false, if_true, ite_true, ite_false]
      by_cases hb : (histRespBatch c (server (dayOf (now - 86400)))).length = 0
      · have h0 : (0 : Int) < min tc 5000 := by
          rw [hb] at hlow
          simpa using hlow
        simp [hb, h0]
      · simp [hb, hlow]
    simp only [get_history_danmaku_js_style, ite_self]
    rcases hs : histStep c server (vd + start_days * 86400) tc
        ⟨p, [], [], 0, now - 86400, [], []⟩ with ⟨b, s1⟩
    rw [hs] at hkey
    obtain ⟨hb1, hb2⟩ := hkey
    simp only at hb1
    subst hb1
    rw [histGo, hs]
    exact ⟨rfl, hb2⟩

/-- C3 witness: a server that fails its first history request produces a
batch below the threshold, and the traversal stops after exactly the one
request for yesterday. -/
theorem claim_C3_witness :
    (get_history_danmaku_js_style c0 errorServer 86400 (some 0) 0 1 5000 [] 1).2
        = true ∧
    (get_history_danmaku_js_style c0 errorServer 86400 (some 0) 0 1 5000 []
        1).1.requests = [dayOf (86400 - 86400)] :=
  claim_C3.2.2 c0 errorServer 86400 0 0 1 5000 [] 0 (by decide) (by decide)

section SegLemmas

theorem segGo_requests (c : Ctx) (server : Nat → Resp) :
    ∀ (fuel idx : Nat) (p : List String) (acc : List DanmakuElement)
      (reqs : List Nat) (sl : List Rat),
      ∃ k, k ≤ fuel ∧ (k = 0 ∨ idx + k ≤ 101) ∧
        (segGo c server fuel idx p acc reqs sl).requests = reqs ++ List.range' idx k := by
  intro fuel
  induction fuel with
  | zero =>
    intro idx p acc reqs sl
    exact ⟨0, Nat.le_refl 0, Or.inl rfl, by simp [segGo]⟩
  | succ fuel ih =>
    intro idx p acc reqs sl
    by_cases hidx : idx ≤ 100
    · have hone : ∃ k, k ≤ fuel + 1 ∧ (k = 0 ∨ idx + k ≤ 101) ∧
          reqs ++ [idx] = reqs ++ List.range' idx k :=
        ⟨1, Nat.succ_le_succ (Nat.zero_le _), Or.inr (by omega), by simp⟩
      simp only [segGo, hidx, if_true, ite_true]
      cases hs : server idx with
      | exn => simpa using hone
      | resp status content =>
        by_cases h304 : status = 304
        · simpa [h304] using hone
        · by_cases h200 : status = 200
          · by_cases hemp : content.length = 0
            · simpa [h304, h200, hemp] using hone
            · by_cases hdec : (decode_danmaku_response c content).length = 0
              · simpa [h304, h200, hemp, hdec] using hone
              · by_cases hnew :
                    (merge_danmaku_in_place c p acc (decode_danmaku_response c content)).2.length
                      - acc.length = 0
                · simpa [h304, h200, hemp, hdec, hnew] using hone
                · obtain ⟨k, hk1, hk2, hk3⟩ := ih (idx + 1)
                    (merge_danmaku_in_place c p acc (decode_danmaku_response c content)).1
                    (merge_danmaku_in_place c p acc (decode_danmaku_response c content)).2
                    (reqs ++ [idx]) (sl ++ [(0.5 : Rat)])
                  refine ⟨k + 1, by omega, Or.inr (by omega), ?_⟩
                  simp only [h304, h200, hemp, hdec, hnew, if_false, if_true,
                    ite_true, ite_false, ne_eq, not_false_iff, not_true]
                  rw [List.range'_succ]
                  simpa [h304, h200, hemp, hdec, hnew] using hk3
          · simpa [h304, h200] using hone
    · exact ⟨0, Nat.zero_le _, Or.inl rfl, by simp [segGo, hidx]⟩

end SegLemmas

set_option maxRecDepth 100000 in
set_option maxHeartbeats 1000000 in
/-- C4: for every server behaviour the live segment fetcher issues at most
100 requests (and terminates), the issued segment indices being the
strictly increasing run 1, 2, ... of consecutive integers; and against a
server that always answers with fresh non-duplicate data it issues exactly
the indices 1 up to and including 100. -/
theorem claim_C4 :
    (∀ (c : Ctx) (server : Nat → Resp) (p : List String),
      (get_segmented_danmaku c server p).requests.length ≤ 100 ∧
      (get_segmented_danmaku c server p).requests =
        List.range' 1 (get_segmented_danmaku c server p).requests.length) ∧
    (get_segmented_danmaku c0 freshSegServer []).requests = List.range' 1 100 := by
  constructor
  · intro c server p
    obtain ⟨k, hk1, hk2, hk3⟩ := segGo_requests c server 100 1 p [] [] []
    have hreq : (get_segmented_danmaku c server p).requests = List.range' 1 k := by
      simpa [get_segmented_danmaku] using hk3
    have hlen : (get_segmented_danmaku c server p).requests.length = k := by
      rw [hreq, List.length_range']
    constructor
    · omega
    · rw [hlen, hreq]
  · decide

/-- C6: within one live segment iteration (index within the hard bound)
the stop conditions apply in source order - not-modified stops, any other
non-success status stops, an empty payload stops, zero decoded records
stop, a merge adding zero new records stops with the merged state - and in
the remaining case the loop recurses on the incremented index after
logging the fixed half-second politeness delay. -/
theorem claim_C6 (c : Ctx) (server : Nat → Resp) (fuel idx : Nat)
    (p : List String) (acc : List DanmakuElement) (reqs : List Nat)
    (sl : List Rat) (hidx : idx ≤ 100) :
    (∀ status content, server idx = Resp.resp status content → status = 304 →
      segGo c server (fuel + 1) idx p acc reqs sl = ⟨p, acc, reqs ++ [idx], sl⟩) ∧
    (∀ status content, server idx = Resp.resp status content →
      status ≠ 304 → status ≠ 200 →
      segGo c server (fuel + 1) idx p acc reqs sl = ⟨p, acc, reqs ++ [idx], sl⟩) ∧
    (∀ content, server idx = Resp.resp 200 content → content.length = 0 →
      segGo c server (fuel + 1) idx p acc reqs sl = ⟨p, acc, reqs ++ [idx], sl⟩) ∧
    (∀ content, server idx = Resp.resp 200 content → content.length ≠ 0 →
      (decode_danmaku_response c content).length = 0 →
      segGo c server (fuel + 1) idx p acc reqs sl = ⟨p, acc, reqs ++ [idx], sl⟩) ∧
    (∀ content, server idx = Resp.resp 200 content → content.length ≠ 0 →
      (decode_danmaku_response c content).length ≠ 0 →
      (merge_danmaku_in_place c p acc (decode_danmaku_response c content)).2.length
          - acc.length = 0 →
      segGo c server (fuel + 1) idx p acc reqs sl =
        ⟨(merge_danmaku_in_place c p acc (decode_danmaku_response c content)).1,
          (merge_danmaku_in_place c p acc (decode_danmaku_response c content)).2,
          reqs ++ [idx], sl⟩) ∧
    (∀ content, server idx = Resp.resp 200 content → content.length ≠ 0 →
      (decode_danmaku_response c content).length ≠ 0 →
      (merge_danmaku_in_place c p acc (decode_danmaku_response c content)).2.length
          - acc.length ≠ 0 →
      segGo c server (fuel + 1) idx p acc reqs sl =
        segGo c server fuel (idx + 1)
          (merge_danmaku_in_place c p acc (decode_danmaku_response c content)).1
          (merge_danmaku_in_place c p acc (decode_danmaku_response c content)).2
          (reqs ++ [idx]) (sl ++ [(0.5 : Rat)])) := by
  refine ⟨?_, ?_, ?_, ?_, ?_, ?_⟩
  · intro status content hs h304
    subst h304
    simp only [segGo, hidx, if_true, ite_true]
    rw [hs]
    simp
  · intro status content hs h304 h200
    simp only [segGo, hidx, if_true, ite_true]
    rw [hs]
    simp [h304, h200]
  · intro content hs hemp
    simp only [segGo, hidx, if_true, ite_true]
    rw [hs]
    simp [hemp]
  · intro content hs hemp hdec
    simp only [segGo, hidx, if_true, ite_true]
    rw [hs]
    simp [hemp, hdec]
  · intro content hs hemp hdec hnew
    simp only [segGo, hidx, if_true, ite_true]
    rw [hs]
    simp [hemp, hdec, hnew]
  · intro content hs hemp hdec hnew
    simp only [segGo, hidx, if_true, ite_true]
    rw [hs]
    simp [hemp, hdec, hnew]

/-- C6 witness: a not-modified response at segment 1 stops the loop at once
with the accumulator untouched and only that request logged. -/
theorem claim_C6_witness :
    segGo c0 resp304Server 1 1 [] [] [] [] =
      ⟨[], [], [1], ([] : List Rat)⟩ :=
  (claim_C6 c0 resp304Server 0 1 [] [] [] [] (by decide)).1 304 [1] rfl rfl

section DecoderLemmas

theorem decode_varintGo_pos_le (data : List Nat) :
    ∀ fuel pos r sh, pos ≤ (decode_varintGo data fuel pos r sh).2 := by
  intro fuel
  induction fuel with
  | zero => intro pos r sh; exact Nat.le_refl pos
  | succ fuel ih =>
    intro pos r sh
    simp only [decode_varintGo]
    split
    · split
      · exact Nat.le_succ pos
      · exact le_trans (Nat.le_succ pos) (ih _ _ _)
    · exact Nat.le_refl pos

theorem decode_varint_pos_le (data : List Nat) (pos : Nat) :
    pos ≤ (decode_varint data pos).2 :=
  decode_varintGo_pos_le data _ pos 0 0

theorem decode_varint_pos_lt (data : List Nat) (pos : Nat) (h : pos < data.length) :
    pos < (decode_varint data pos).2 := by
  unfold decode_varint
  have hf : data.length - pos = (data.length - pos - 1) + 1 := by omega
  rw [hf]
  simp only [decode_varintGo]
  split
  · split
    · exact Nat.lt_succ_self pos
    · exact lt_of_lt_of_le (Nat.lt_succ_self pos) (decode_varintGo_pos_le data _ _ _ _)
  · omega

theorem respGo_out (c : Ctx) (data : List Nat) (fuel pos : Nat)
    (acc : List DanmakuElement) (h : ¬ pos < data.length) :
    decode_danmaku_responseGo c data fuel pos acc = acc := by
  cases fuel with
  | zero => rfl
  | succ fuel => simp [decode_danmaku_responseGo, h]

theorem elemGo_out (c : Ctx) (data : List Nat) (fuel pos : Nat) (e : ElemDict)
    (h : ¬ pos < data.length) :
    decode_danmaku_elementGo c data fuel pos e = e := by
  cases fuel with
  | zero => rfl
  | succ fuel => simp [decode_danmaku_elementGo, h]

theorem respGo_fuel (c : Ctx) (data : List Nat) :
    ∀ n f g pos acc, data.length - pos ≤ n → data.length - pos ≤ f →
      data.length - pos ≤ g →
      decode_danmaku_responseGo c data f pos acc =
        decode_danmaku_responseGo c data g pos acc := by
  intro n
  induction n with
  | zero =>
    intro f g pos acc h1 h2 h3
    have hout : ¬ pos < data.length := by omega
    rw [respGo_out c data f pos acc hout, respGo_out c data g pos acc hout]
  | succ n ih =>
    intro f g pos acc h1 h2 h3
    by_cases hp : pos < data.length
    · obtain ⟨f1, rfl⟩ : ∃ f1, f = f1 + 1 := ⟨f - 1, by omega⟩
      obtain ⟨g1, rfl⟩ : ∃ g1, g = g1 + 1 := ⟨g - 1, by omega⟩
      have htag : pos < (decode_varint data pos).2 := decode_varint_pos_lt data pos hp
      have hlen : (decode_varint data pos).2 ≤
          (decode_varint data (decode_varint data pos).2).2 :=
        decode_varint_pos_le data _
      simp only [decode_danmaku_responseGo]
      rw [if_pos hp, if_pos hp]
      by_cases hfw : (decode_varint data pos).1 >>> 3 = 1 ∧
          (decode_varint data pos).1 &&& 7 = 2
      · rw [if_pos hfw, if_pos hfw]
        cases decode_danmaku_element c
            ((data.drop (decode_varint data (decode_varint data pos).2).2).take
              (decode_varint data (decode_varint data pos).2).1) with
        | some d => exact ih f1 g1 _ _ (by omega) (by omega) (by omega)
        | none => exact ih f1 g1 _ _ (by omega) (by omega) (by omega)
      · rw [if_neg hfw, if_neg hfw]
        by_cases hw0 : (decode_varint data pos).1 &&& 7 = 0
        · rw [if_pos hw0, if_pos hw0]
          exact ih f1 g1 _ _ (by omega) (by omega) (by omega)
        · rw [if_neg hw0, if_neg hw0]
          by_cases hw2 : (decode_varint data pos).1 &&& 7 = 2
          · rw [if_pos hw2, if_pos hw2]
            exact ih f1 g1 _ _ (by omega) (by omega) (by omega)
          · rw [if_neg hw2, if_neg hw2]
    · rw [respGo_out c data _ pos acc hp, respGo_out c data _ pos acc hp]

theorem elemGo_fuel (c : Ctx) (data : List Nat) :
    ∀ n f g pos e, data.length - pos ≤ n → data.length - pos ≤ f →
      data.length - pos ≤ g →
      decode_danmaku_elementGo c data f pos e =
        decode_danmaku_elementGo c data g pos e := by
  intro n
  induction n with
  | zero =>
    intro f g pos e h1 h2 h3
    have hout : ¬ pos < data.length := by omega
    rw [elemGo_out c data f pos e hout, elemGo_out c data g pos e hout]
  | succ n ih =>
    intro f g pos e h1 h2 h3
    by_cases hp : pos < data.length
    · obtain ⟨f1, rfl⟩ : ∃ f1, f = f1 + 1 := ⟨f - 1, by omega⟩
      obtain ⟨g1, rfl⟩ : ∃ g1, g = g1 + 1 := ⟨g - 1, by omega⟩
      have htag : pos < (decode_varint data pos).2 := decode_varint_pos_lt data pos hp
      have hlen : (decode_varint data pos).2 ≤
          (decode_varint data (decode_varint data pos).2).2 :=
        decode_varint_pos_le data _
      simp only [decode_danmaku_elementGo]
      rw [if_pos hp, if_pos hp]
      by_cases hw0 : (decode_varint data pos).1 &&& 7 = 0
      · rw [if_pos hw0, if_pos hw0]
        exact ih f1 g1 _ _ (by omega) (by omega) (by omega)
      · rw [if_neg hw0, if_neg hw0]
        by_cases hw2 : (decode_varint data pos).1 &&& 7 = 2
        · rw [if_pos hw2, if_pos hw2]
          exact ih f1 g1 _ _ (by omega) (by omega) (by omega)
        · rw [if_neg hw2, if_neg hw2]
    · rw [elemGo_out c data _ pos e hp, elemGo_out c data _ pos e hp]

end DecoderLemmas

/-- C7 (amended): in the top-level wire loop a field tagged number 1 and
wire kind 2 contributes its decoded sub-message record when the sub-message
yields at least one recognized field and is dropped when it yields none;
any other tag of wire kind 0 or 2 is skipped by consuming a varint or a
length-prefixed run, continuing the loop at the advanced position with the
collected records untouched; any other wire kind aborts the current message
returning the records collected; and a payload interleaving unknown fields
around known ones decodes the known records intact. -/
theorem claim_C7 :
    (∀ (c : Ctx) (data : List Nat) (fuel pos : Nat) (acc : List DanmakuElement),
      pos < data.length →
      (decode_varint data pos).1 >>> 3 = 1 →
      (decode_varint data pos).1 &&& 7 = 2 →
      (∀ e, decode_danmaku_element c
          ((data.drop (decode_varint data (decode_varint data pos).2).2).take
            (decode_varint data (decode_varint data pos).2).1) = some e →
        decode_danmaku_responseGo c data (fuel + 1) pos acc =
          decode_danmaku_responseGo c data fuel
            ((decode_varint data (decode_varint data pos).2).2 +
              (decode_varint data (decode_varint data pos).2).1)
            (acc ++ [DanmakuElement.ofDict e])) ∧
      (decode_danmaku_element c
          ((data.drop (decode_varint data (decode_varint data pos).2).2).take
            (decode_varint data (decode_varint data pos).2).1) = none →
        decode_danmaku_responseGo c data (fuel + 1) pos acc =
          decode_danmaku_responseGo c data fuel
            ((decode_varint data (decode_varint data pos).2).2 +
              (decode_varint data (decode_varint data pos).2).1) acc)) ∧
    (∀ (c : Ctx) (data : List Nat) (fuel pos : Nat) (acc : List DanmakuElement),
      pos < data.length →
      ¬ ((decode_varint data pos).1 >>> 3 = 1 ∧ (decode_varint data pos).1 &&& 7 = 2) →
      (decode_varint data pos).1 &&& 7 = 0 →
      decode_danmaku_responseGo c data (fuel + 1) pos acc =
        decode_danmaku_responseGo c data fuel
          (decode_varint data (decode_varint data pos).2).2 acc) ∧
    (∀ (c : Ctx) (data : List Nat) (fuel pos : Nat) (acc : List DanmakuElement),
      pos < data.length →
      ¬ ((decode_varint data pos).1 >>> 3 = 1 ∧ (decode_varint data pos).1 &&& 7 = 2) →
      (decode_varint data pos).1 &&& 7 = 2 →
      decode_danmaku_responseGo c data (fuel + 1) pos acc =
        decode_danmaku_responseGo c data fuel
          ((decode_varint data (decode_varint data pos).2).2 +
            (decode_varint data (decode_varint data pos).2).1) acc) ∧
    (∀ (c : Ctx) (data : List Nat) (fuel pos : Nat) (acc : List DanmakuElement),
      pos < data.length →
      (decode_varint data pos).1 &&& 7 ≠ 0 →
      (decode_varint data pos).1 &&& 7 ≠ 2 →
      decode_danmaku_responseGo c data (fuel + 1) pos acc = acc) ∧
    decode_danmaku_response c0 [8, 7, 10, 2, 16, 9, 26, 1, 255, 10, 2, 24, 3] =
      [mkElem 9, { mkElem 0 with mode := 3 }] := by
  refine ⟨?_, ?_, ?_, ?_, by decide⟩
  · intro c data fuel pos acc hp hfn hwt
    constructor
    · intro e he
      simp only [decode_danmaku_responseGo]
      rw [if_pos hp, if_pos ⟨hfn, hwt⟩, he]
    · intro he
      simp only [decode_danmaku_responseGo]
      rw [if_pos hp, if_pos ⟨hfn, hwt⟩, he]
  · intro c data fuel pos acc hp hfw hw0
    simp only [decode_danmaku_responseGo]
    rw [if_pos hp, if_neg hfw, if_pos hw0]
  · intro c data fuel pos acc hp hfw hw2
    simp only [decode_danmaku_responseGo]
    rw [if_pos hp, if_neg hfw, if_neg (by simp [hw2]), if_pos hw2]
  · intro c data fuel pos acc hp hw0 hw2
    have hfw : ¬ ((decode_varint data pos).1 >>> 3 = 1 ∧
        (decode_varint data pos).1 &&& 7 = 2) := fun h => hw2 h.2
    simp only [decode_danmaku_responseGo]
    rw [if_pos hp, if_neg hfw, if_neg hw0, if_neg hw2]

/-- C7 witness: the skip rule applied at a concrete unknown varint field
(tag 8, field number 1, wire kind 0) continues the loop at the advanced
position without touching the collected records. -/
theorem claim_C7_witness :
    decode_danmaku_responseGo c0 [8, 7] 2 0 [] =
      decode_danmaku_responseGo c0 [8, 7] 1
        (decode_varint [8, 7] (decode_varint [8, 7] 0).2).2 [] :=
  claim_C7.2.1 c0 [8, 7] 1 0 [] (by decide) (by decide) (by decide)

/-- C7 counterexample: a payload whose single top-level field has number 1
and wire kind 2 but a zero-length sub-message decodes to zero records, not
one record per such field as claimed. -/
theorem claim_C7_counterexample :
    (decode_varint [10, 0] 0).1 >>> 3 = 1 ∧
    (decode_varint [10, 0] 0).1 &&& 7 = 2 ∧
    decode_danmaku_response c0 [10, 0] = [] := by
  decide

/-- C8: decoding always terminates on every input (any sufficient fuel
yields the same value for both decoders), a malformed wire kind inside a
record truncates it keeping the fields already parsed, every failure
outcome of a history request (transport exception, non-success status,
empty payload) yields the empty batch and an iteration seeing an empty
batch leaves the accumulator untouched with the last batch reset to empty,
and a transport exception in the segment loop stops it with the
accumulator unchanged. -/
theorem claim_C8 :
    (∀ (c : Ctx) (data : List Nat) (f g pos : Nat) (acc : List DanmakuElement),
      data.length - pos ≤ f → data.length - pos ≤ g →
      decode_danmaku_responseGo c data f pos acc =
        decode_danmaku_responseGo c data g pos acc) ∧
    (∀ (c : Ctx) (data : List Nat) (f g pos : Nat) (e : ElemDict),
      data.length - pos ≤ f → data.length - pos ≤ g →
      decode_danmaku_elementGo c data f pos e =
        decode_danmaku_elementGo c data g pos e) ∧
    (∀ (c : Ctx) (data : List Nat) (fuel pos : Nat) (e : ElemDict),
      pos < data.length →
      (decode_varint data pos).1 &&& 7 ≠ 0 →
      (decode_varint data pos).1 &&& 7 ≠ 2 →
      decode_danmaku_elementGo c data (fuel + 1) pos e = e) ∧
    (∀ (c : Ctx), histRespBatch c Resp.exn = [] ∧
      (∀ (status : Nat) (content : List Nat), status ≠ 200 →
        histRespBatch c (Resp.resp status content) = []) ∧
      (∀ content : List Nat, content.length = 0 →
        histRespBatch c (Resp.resp 200 content) = [])) ∧
    (∀ (c : Ctx) (server : Int → Resp) (start_date ond : Int) (s : HistState),
      ¬ s.current_date < start_date →
      (s.first_date = 0 ∨ 2 * (s.ldanmu.length : Int) ≥ min ond 5000) →
      (histRespBatch c (server (dayOf s.current_date))).length = 0 →
      (histStep c server start_date ond s).2.aldanmu = s.aldanmu ∧
      (histStep c server start_date ond s).2.ldanmu = []) ∧
    (∀ (c : Ctx) (server : Nat → Resp) (fuel idx : Nat) (p : List String)
      (acc : List DanmakuElement) (reqs : List Nat) (sl : List Rat),
      idx ≤ 100 → server idx = Resp.exn →
      segGo c server (fuel + 1) idx p acc reqs sl = ⟨p, acc, reqs ++ [idx], sl⟩) := by
  refine ⟨?_, ?_, ?_, ?_, ?_, ?_⟩
  · intro c data f g pos acc h1 h2
    exact respGo_fuel c data (data.length - pos) f g pos acc (Nat.le_refl _) h1 h2
  · intro c data f g pos e h1 h2
    exact elemGo_fuel c data (data.length - pos) f g pos e (Nat.le_refl _) h1 h2
  · intro c data fuel pos e hp hw0 hw2
    simp only [decode_danmaku_elementGo]
    rw [if_pos hp, if_neg hw0, if_neg hw2]
  · intro c
    refine ⟨rfl, ?_, ?_⟩
    · intro status content h
      simp [histRespBatch, h]
    · intro content h
      simp [histRespBatch, h]
  · intro c server start_date ond s hwhile hgate hbatch
    simp only [histStep, hwhile, hgate, hbatch, if_false, if_true, ite_true,
      ite_false]
    by_cases hd : (0 : Int) < min ond 5000 <;> simp [hbatch, hd]
  · intro c server fuel idx p acc reqs sl hidx hs
    simp only [segGo, hidx, if_true, ite_true]
    rw [hs]

/-- C8 witness: the response decoder run on a concrete payload gives the
same result under two different sufficient fuels. -/
theorem claim_C8_witness :
    decode_danmaku_responseGo c0 [10, 0] 5 0 [] =
      decode_danmaku_responseGo c0 [10, 0] 2 0 [] :=
  claim_C8.1 c0 [10, 0] 5 2 0 [] (by decide) (by decide)

theorem probe_sample_empty (c : Ctx) (r : Resp) :
    (get_current_danmaku_info c r).2 = [] := by
  cases r with
  | exn => rfl
  | resp status content =>
    simp only [get_current_danmaku_info]
    split
    · split <;> rfl
    · rfl

/-- C9: with no publish date the history fetch returns empty immediately
and issues no request, the orchestrator never runs the history phase, and
the final offset-sorted output equals the offset-sorted deduplication of
the probe sample followed by the live segment list. -/
theorem claim_C9 :
    (∀ (c : Ctx) (server : Int → Resp) (now start_days end_days target_count : Int)
        (p : List String) (fuel : Nat),
      (get_history_danmaku_js_style c server now none start_days end_days
          target_count p fuel).1.aldanmu = [] ∧
      (get_history_danmaku_js_style c server now none start_days end_days
          target_count p fuel).1.requests = []) ∧
    (∀ (c : Ctx) (segServer : Nat → Resp) (histServer : Int → Resp)
        (now start_days : Int) (end_days : Option Int) (histFuel : Nat),
      (get_complete_danmaku_js_style c segServer histServer now none start_days
          end_days histFuel).histRan = false ∧
      (get_complete_danmaku_js_style c segServer histServer now none start_days
          end_days histFuel).histRequests = [] ∧
      save_danmaku_sort (get_complete_danmaku_js_style c segServer histServer now
          none start_days end_days histFuel).merged =
        save_danmaku_sort (dedupGo c [] []
          ((get_current_danmaku_info c (segServer 1)).2 ++
            (get_segmented_danmaku c segServer []).danmaku_list)).2) := by
  constructor
  · intro c server now start_days end_days target_count p fuel
    exact ⟨rfl, rfl⟩
  · intro c segServer histServer now start_days end_days histFuel
    refine ⟨rfl, rfl, ?_⟩
    simp only [get_complete_danmaku_js_style]
    rw [probe_sample_empty]
    by_cases hseg : (get_segmented_danmaku c segServer []).danmaku_list.length = 0
    · have hnil : (get_segmented_danmaku c segServer []).danmaku_list = [] :=
        List.length_eq_zero.mp hseg
      simp [hseg, hnil, dedupGo]
    · simp [hseg, dedupGo]

end DanmDown
